import Mathlib

/-!
Verification of the batadase typed LMDB access layer.

The repository consists of two files:
- `src/lmdb.rs`: thin wrappers over the LMDB C API (`lmdb_sys`) translating
  engine status codes through an error-translation module;
- `src/assoc_poly_table.rs`: a typed table (`AssocPolyTable`) built on the
  rkyv serialization codec and those wrappers.

The LMDB engine itself is an external collaborator; the spec treats it as a
black box with a documented contract (a transactional, sorted key-value
store).  We embed one database of that engine as a sorted association list
of byte strings together with its configuration flags, and translate the
wrapper and table functions from the Rust source on top of it.  The
error-translation module (`src/lmdb/error.rs`) is declared by the source
(`pub mod error;`) but its file is not part of the sources we have, so its
handler functions are modelled from the spec's error taxonomy.
-/

namespace Batadase

/-- A byte string, as passed across the engine boundary.  Reachable states
only hold entries whose bytes are below 256; nothing below depends on it. -/
abbrev Bytes := List Nat

/-- Modelled from the spec: the engine compares keys as byte strings, a
prefix ordering before the longer string (LMDB's default key comparison;
"sorted key space").  `bytesLt a b = true` iff `a` sorts strictly before
`b`. -/
def bytesLt : Bytes → Bytes → Bool
  | [], [] => false
  | [], _ :: _ => true
  | _ :: _, [] => false
  | a :: as, b :: bs => if a < b then true else if b < a then false else bytesLt as bs

/-! ## Engine status codes (spec §6: success, not-found, key-exists,
invalid argument, …), with LMDB's numeric values from `lmdb_sys`. -/

def MDB_SUCCESS : Int := 0
def MDB_KEYEXIST : Int := -30799
def MDB_NOTFOUND : Int := -30798
def EINVAL : Int := 22

/-! ## One engine database

Modelled from the spec: a named, independently-configured sorted key space.
Entries are kept sorted by `bytesLt` on keys; configuration flags record
the database-flag axes the wrapper's operations are gated on. -/

/-- The entries of one database: an association list of (key, value) byte
strings, sorted strictly ascending by `bytesLt` in every reachable state. -/
abbrev DbEntries := List (Bytes × Bytes)

/-- Modelled from the spec: the database flags chosen at open time that gate
which per-call flags are legal (duplicate support, fixed-size duplicates,
the integer-key optimization). -/
structure EngineDb where
  dupSort : Bool := false
  dupFixed : Bool := false
  integerKey : Bool := false
  entries : DbEntries := []
deriving DecidableEq, Repr

/-- Point lookup in the entry list (first match). -/
def engineLookup (es : DbEntries) (k : Bytes) : Option Bytes :=
  match es with
  | [] => none
  | (k', v') :: rest => if k' = k then some v' else engineLookup rest k

/-- Sorted insert with overwrite: the engine's put for a non-duplicate
database keeps exactly one value per key, in key order. -/
def insertSorted (es : DbEntries) (k v : Bytes) : DbEntries :=
  match es with
  | [] => [(k, v)]
  | (k', v') :: rest =>
    if bytesLt k k' then (k, v) :: (k', v') :: rest
    else if k = k' then (k, v) :: rest
    else (k', v') :: insertSorted rest k v

/-- Remove every entry stored under key `k` (at most one in a reachable
non-duplicate state). -/
def removeKey (es : DbEntries) (k : Bytes) : DbEntries :=
  es.filter (fun e => decide (e.1 ≠ k))

/-- Per-call put flags (`PutFlags` in `src/lmdb.rs`), one Bool per named
flag of the bitflags enum. -/
structure PutFlags where
  noDupData : Bool := false
  noOverwrite : Bool := false
  reserve : Bool := false
  append : Bool := false
  appendDup : Bool := false
deriving DecidableEq, Repr

/-- `PutFlags::empty()`. -/
def PutFlags.empty : PutFlags := {}

/-- Modelled from the spec: the engine's put.  Duplicate-data flags require
a duplicate-enabled database (rejected with EINVAL otherwise); with
no-overwrite set, a present key is reported as KEYEXIST and the state is
unchanged; otherwise the entry is inserted in key order, overwriting. -/
def enginePut (db : EngineDb) (k v : Bytes) (f : PutFlags) : Int × EngineDb :=
  if (f.noDupData || f.appendDup) && !db.dupSort then (EINVAL, db)
  else if f.noOverwrite && (engineLookup db.entries k).isSome then (MDB_KEYEXIST, db)
  else (MDB_SUCCESS, { db with entries := insertSorted db.entries k v })

/-- Modelled from the spec: the engine's point get; NOTFOUND is a distinct
status, not an error. -/
def engineGet (db : EngineDb) (k : Bytes) : Int × Option Bytes :=
  match engineLookup db.entries k with
  | some v => (MDB_SUCCESS, some v)
  | none => (MDB_NOTFOUND, none)

/-- Modelled from the spec: the engine's delete of a whole key; NOTFOUND
when the key is absent, in which case the state is unchanged. -/
def engineDel (db : EngineDb) (k : Bytes) : Int × EngineDb :=
  if (engineLookup db.entries k).isSome then
    (MDB_SUCCESS, { db with entries := removeKey db.entries k })
  else (MDB_NOTFOUND, db)

/-- Modelled from the spec: dropping the database's contents empties it. -/
def engineDrop (db : EngineDb) : Int × EngineDb :=
  (MDB_SUCCESS, { db with entries := [] })

/-- Modelled from the spec: the statistics query reports the entry count
(`ms_entries` of `MDB_stat`). -/
def engineStat (db : EngineDb) : Int × Nat :=
  (MDB_SUCCESS, db.entries.length)

/-! ## Errors and the code handlers

The error-translation module `src/lmdb/error.rs` is declared by the source
but not among the source files; the `Error` type and the `handle_*_code`
functions are modelled from the spec's error taxonomy (§7). -/

/-- Modelled from the spec: the error taxonomy of §7.  NotFound is not a
member: absence is an absent result, never a failure.  `codec` stands for a
failure of the serialization codec (rkyv) on encode or deserialize;
`corrupted` for stored bytes failing validation. -/
inductive Error where
  | keyExists
  | corrupted
  | codec
  | resourceExhausted
  | invalidArgument
  | engineInternal (code : Int)
deriving DecidableEq, Repr

/-- Modelled from the spec: missing module `src/lmdb/error.rs`.  §7 maps
KEYEXIST to KeyExists, EINVAL to InvalidArgument, other non-success codes
to an opaque engine error; success is Ok. -/
def handle_put_code (c : Int) : Except Error Unit :=
  if c = MDB_SUCCESS then .ok ()
  else if c = MDB_KEYEXIST then .error .keyExists
  else if c = EINVAL then .error .invalidArgument
  else .error (.engineInternal c)

/-- Modelled from the spec: missing module `src/lmdb/error.rs`.  The delete
wrapper reports whether a key existed to delete: success is `true`,
NOTFOUND is `false`, everything else an error. -/
def handle_del_code (c : Int) : Except Error Bool :=
  if c = MDB_SUCCESS then .ok true
  else if c = MDB_NOTFOUND then .ok false
  else .error (.engineInternal c)

/-- Modelled from the spec: missing module `src/lmdb/error.rs`.  Point
lookup: success `true`, NOTFOUND `false` (an absent result, not a
failure), everything else an error. -/
def handle_get_code (c : Int) : Except Error Bool :=
  if c = MDB_SUCCESS then .ok true
  else if c = MDB_NOTFOUND then .ok false
  else .error (.engineInternal c)

/-- Modelled from the spec: missing module `src/lmdb/error.rs`. -/
def handle_drop_code (c : Int) : Except Error Unit :=
  if c = MDB_SUCCESS then .ok () else .error (.engineInternal c)

/-- Modelled from the spec: missing module `src/lmdb/error.rs`. -/
def handle_stat_code (c : Int) : Except Error Unit :=
  if c = MDB_SUCCESS then .ok () else .error (.engineInternal c)

/-- Modelled from the spec: missing module `src/lmdb/error.rs`.  In the
source this function returns a plain `bool` (`Cursor::get` has no error
channel), so it can only report found / not-found; a genuine engine error
cannot be turned into a value of the source's return type and aborts the
process.  `none` models that abort; `some true` is success and
`some false` NOTFOUND. -/
def handle_cursor_get_code (c : Int) : Option Bool :=
  if c = MDB_SUCCESS then some true
  else if c = MDB_NOTFOUND then some false
  else none

/-- Modelled from the spec: missing module `src/lmdb/error.rs`.  The result
is discarded by `dbi_open` in the source. -/
def handle_dbi_open_code (c : Int) : Except Error Unit :=
  if c = MDB_SUCCESS then .ok () else .error (.engineInternal c)

/-! ## The wrapper functions of `src/lmdb.rs`

Each wrapper calls the engine primitive and feeds the status code through
its handler.  Mutating wrappers return the engine state after the call next
to the wrapper's result, standing for the transaction-local page state the
Rust functions mutate through `tx.raw()`. -/

/-- `lmdb::put` (src/lmdb.rs:149-152): feed key, value and flags to the
engine's put and translate the status code. -/
def lmdb.put (db : EngineDb) (key val : Bytes) (flags : PutFlags) :
    Except Error Unit × EngineDb :=
  let (c, db') := enginePut db key val flags
  (handle_put_code c, db')

/-- `lmdb::del` (src/lmdb.rs:154-157): delete the key, reporting whether it
existed. -/
def lmdb.del (db : EngineDb) (key : Bytes) : Except Error Bool × EngineDb :=
  let (c, db') := engineDel db key
  (handle_del_code c, db')

/-- `lmdb::drop` (src/lmdb.rs:159-162): empty out the database. -/
def lmdb.drop (db : EngineDb) : Except Error Unit × EngineDb :=
  let (c, db') := engineDrop db
  (handle_drop_code c, db')

/-- `lmdb::get` (src/lmdb.rs:164-169): point lookup; `ok none` when the
handler reports not-found. -/
def lmdb.get (db : EngineDb) (key : Bytes) : Except Error (Option Bytes) :=
  let (c, v) := engineGet db key
  match handle_get_code c with
  | .error e => .error e
  | .ok false => .ok none
  | .ok true => .ok v

/-- `lmdb::stat` (src/lmdb.rs:219-224): database statistics (entry
count). -/
def lmdb.stat (db : EngineDb) : Except Error Nat :=
  let (c, n) := engineStat db
  match handle_stat_code c with
  | .error e => .error e
  | .ok () => .ok n

/-- `lmdb::dbi_open` (src/lmdb.rs:213-217).  `code` is the status the
engine's `mdb_dbi_open` returns for this (transaction, name, flags) call
and `written` the handle value it wrote to the out-parameter; the engine
writes the out-parameter only on success, so on failure the zero the
wrapper initialized it with remains.  The source passes the code to
`handle_dbi_open_code` but discards the result and returns the handle
unconditionally — the wrapper's type has no failure outcome. -/
def lmdb.dbi_open (code : Int) (written : Nat) : Nat :=
  let dbi : Nat := 0
  let dbi : Nat := if code = MDB_SUCCESS then written else dbi
  let _ := handle_dbi_open_code code
  dbi

/-! ## Cursors

The cursor operation flags of `src/lmdb.rs:25-53`, and a positional model
of the engine's cursor (an optional index into the sorted entry list),
modelled from the spec's cursor state machine (§4.4). -/

/-- `CursorOpFlags` (src/lmdb.rs:25-53), one constructor per variant. -/
inductive CursorOpFlags where
  | GetCurrent
  | First
  | Last
  | Next
  | Prev
  | Set
  | SetKey
  | SetRange
  | GetMultiple
  | NextMultiple
  | FirstDup
  | LastDup
  | NextDup
  | NextNodup
  | PrevDup
  | PrevNodup
  | GetBoth
  | GetBothRange
deriving DecidableEq, Repr

/-- The operators the source file comments mark "ONLY DbFlags::DupSort". -/
def CursorOpFlags.dupOnly : CursorOpFlags → Bool
  | .FirstDup | .LastDup | .NextDup | .NextNodup
  | .PrevDup | .PrevNodup | .GetBoth | .GetBothRange => true
  | _ => false

/-- The operators the source file comments mark "ONLY DbFlags::DupFixed". -/
def CursorOpFlags.bulkOnly : CursorOpFlags → Bool
  | .GetMultiple | .NextMultiple => true
  | _ => false

/-- Engine-side cursor state: unpositioned, or at an index of the sorted
entry list. -/
structure CursorSt where
  pos : Option Nat
deriving DecidableEq, Repr

/-- Position the cursor at entry `p` when it exists; report NOTFOUND and
leave the state alone otherwise. -/
def cursorNth (db : EngineDb) (st : CursorSt) (p : Nat) :
    Int × CursorSt × Option (Bytes × Bytes) :=
  match db.entries[p]? with
  | some e => (MDB_SUCCESS, ⟨some p⟩, some e)
  | none => (MDB_NOTFOUND, st, none)

/-- Modelled from the spec: the engine's cursor positioning (§4.4; §4.5:
duplicate-only operators require duplicate-enabled databases and bulk
operators fixed-size-duplicate databases, enforced by the engine with
EINVAL).  Key-directed operators need a key input, which the keyless
`Cursor::get` path passes as a zeroed buffer, rejected with EINVAL.
Duplicate-aware operators are modelled on the degenerate one-value-per-key
states this layer produces: within-key steps find no further duplicate, and
distinct-key steps coincide with `Next`/`Prev`. -/
def engineCursorGet (db : EngineDb) (st : CursorSt) (op : CursorOpFlags) :
    Int × CursorSt × Option (Bytes × Bytes) :=
  if op.dupOnly && !db.dupSort then (EINVAL, st, none)
  else if op.bulkOnly && !db.dupFixed then (EINVAL, st, none)
  else match op with
  | .GetCurrent =>
    match st.pos with
    | none => (EINVAL, st, none)
    | some p => cursorNth db st p
  | .First => cursorNth db st 0
  | .Last => cursorNth db st (db.entries.length - 1)
  | .Next =>
    match st.pos with
    | none => cursorNth db st 0
    | some p => cursorNth db st (p + 1)
  | .Prev =>
    match st.pos with
    | none => cursorNth db st (db.entries.length - 1)
    | some p => if p = 0 then (MDB_NOTFOUND, st, none) else cursorNth db st (p - 1)
  | .Set | .SetKey | .SetRange => (EINVAL, st, none)
  | .FirstDup | .LastDup | .GetMultiple =>
    match st.pos with
    | none => (EINVAL, st, none)
    | some p => cursorNth db st p
  | .NextDup | .PrevDup => (MDB_NOTFOUND, st, none)
  | .NextNodup | .NextMultiple =>
    match st.pos with
    | none => cursorNth db st 0
    | some p => cursorNth db st (p + 1)
  | .PrevNodup =>
    match st.pos with
    | none => cursorNth db st (db.entries.length - 1)
    | some p => if p = 0 then (MDB_NOTFOUND, st, none) else cursorNth db st (p - 1)
  | .GetBoth | .GetBothRange => (EINVAL, st, none)

/-- `Cursor::get` (src/lmdb.rs:108-116): the op flags go straight to the
engine — the wrapper performs no flag-compatibility check and holds no
database flags at all (its fields are the raw cursor pointer and the
transaction) — and the status code goes through `handle_cursor_get_code`.
The outer `none` is that handler's abort on a genuine error; `some (st,
none)` is the absent result (NOTFOUND); `some (st, some kv)` success. -/
def Cursor.get (db : EngineDb) (st : CursorSt) (op : CursorOpFlags) :
    Option (CursorSt × Option (Bytes × Bytes)) :=
  let (c, st', kv) := engineCursorGet db st op
  match handle_cursor_get_code c with
  | none => none
  | some true => some (st', kv)
  | some false => some (st', none)

/-- `u64::from_ne_bytes` on the 8 bytes read, on a little-endian platform
(the native order of the targets the crate builds for). -/
def u64_from_ne_bytes (bs : Bytes) : Nat :=
  bs.foldr (fun b acc => b % 256 + 256 * acc) 0

/-- `Cursor::get_with_u64_key` (src/lmdb.rs:131-140): like `Cursor::get`,
but on success the key is decoded by an unconditional 8-byte read from the
key pointer — `tail` stands for the mapped-memory bytes that follow the
key's own bytes and are read past its end whenever the key is shorter than
8 bytes (the length check, `debug_assert`, is compiled out of release
builds and guards nothing here). -/
def Cursor.get_with_u64_key (db : EngineDb) (st : CursorSt) (op : CursorOpFlags)
    (tail : Bytes) : Option (CursorSt × Option (Nat × Bytes)) :=
  let (c, st', kv) := engineCursorGet db st op
  match handle_cursor_get_code c with
  | none => none
  | some false => some (st', none)
  | some true =>
    match kv with
    | none => some (st', none)
    | some (k, v) => some (st', some (u64_from_ne_bytes ((k ++ tail).take 8), v))

/-! ## The serialization codec and the typed table

The rkyv codec is an external collaborator; the spec's contract for it
(§6): encode a typed value to bytes; validate that a byte slice encodes a
well-formed archived value and give typed access to it; deserialize an
archived value into an owned one.  A `Codec` bundles those three
operations; `Codec.Lawful` states the round-trip laws the contract
promises, with `archOf` the archived image of a value. -/

structure Codec (α : Type) (arch : Type) where
  encode : α → Except Error Bytes
  access : Bytes → Except Error arch
  deserialize : arch → Except Error α

structure Codec.Lawful (c : Codec α arch) (archOf : α → arch) : Prop where
  encode_total : ∀ v : α, ∃ bs, c.encode v = .ok bs
  access_encode : ∀ (v : α) (bs : Bytes), c.encode v = .ok bs → c.access bs = .ok (archOf v)
  deserialize_arch : ∀ v : α, c.deserialize (archOf v) = .ok v

/-! ## `AssocPolyTable` (src/assoc_poly_table.rs)

The table is a transaction reference plus a database handle; here the
database state is passed explicitly, and the key/value type parameters come
with their rkyv codecs. -/

/-- `AssocPolyTable::put` (src/assoc_poly_table.rs:28-35): rkyv-serialize
key and value, then `lmdb::put` with empty flags. -/
def AssocPolyTable.put (kc : Codec K KA) (vc : Codec V VA) (db : EngineDb)
    (k : K) (v : V) : Except Error Unit × EngineDb :=
  match kc.encode k with
  | .error e => (.error e, db)
  | .ok kb =>
    match vc.encode v with
    | .error e => (.error e, db)
    | .ok vb => lmdb.put db kb vb PutFlags.empty

/-- `AssocPolyTable::put_no_overwrite` (src/assoc_poly_table.rs:37-44): as
`put`, with the NoOverwrite flag. -/
def AssocPolyTable.put_no_overwrite (kc : Codec K KA) (vc : Codec V VA)
    (db : EngineDb) (k : K) (v : V) : Except Error Unit × EngineDb :=
  match kc.encode k with
  | .error e => (.error e, db)
  | .ok kb =>
    match vc.encode v with
    | .error e => (.error e, db)
    | .ok vb => lmdb.put db kb vb { noOverwrite := true }

/-- `AssocPolyTable::delete` (src/assoc_poly_table.rs:46-50): rkyv-serialize
the key, then `lmdb::del`. -/
def AssocPolyTable.delete (kc : Codec K KA) (db : EngineDb) (k : K) :
    Except Error Bool × EngineDb :=
  match kc.encode k with
  | .error e => (.error e, db)
  | .ok kb => lmdb.del db kb

/-- `AssocPolyTable::clear` (src/assoc_poly_table.rs:52-53): `lmdb::drop`. -/
def AssocPolyTable.clear (db : EngineDb) : Except Error Unit × EngineDb :=
  lmdb.drop db

/-- `AssocPolyTable::get` (src/assoc_poly_table.rs:66-74): rkyv-serialize
the key, point lookup, and on a present value validate the stored bytes
(`rkyv::access`), returning the archived view; key absence is `ok none`. -/
def AssocPolyTable.get (kc : Codec K KA) (vc : Codec V VA) (db : EngineDb)
    (k : K) : Except Error (Option VA) :=
  match kc.encode k with
  | .error e => .error e
  | .ok kb =>
    match lmdb.get db kb with
    | .error e => .error e
    | .ok none => .ok none
    | .ok (some bs) =>
      match vc.access bs with
      | .error e => .error e
      | .ok a => .ok (some a)

/-- `AssocPolyTable::get_unrkyv` (src/assoc_poly_table.rs:76-83): call
`get` and deserialize the archived view into an owned value. -/
def AssocPolyTable.get_unrkyv (kc : Codec K KA) (vc : Codec V VA)
    (db : EngineDb) (k : K) : Except Error (Option V) :=
  match AssocPolyTable.get kc vc db k with
  | .error e => .error e
  | .ok none => .ok none
  | .ok (some a) =>
    match vc.deserialize a with
    | .error e => .error e
    | .ok v => .ok (some v)

/-! ## Transactions and commit

Modelled from the spec (§4.2): a read-write transaction sees the committed
state plus its own writes (here: the explicitly passed database state);
commit publishes that state, and transactions begun later read it. -/

structure Env where
  db : EngineDb
deriving DecidableEq, Repr

/-- Begin a read-write transaction: its view starts at the committed state. -/
def Env.beginRw (e : Env) : EngineDb := e.db

/-- Begin a read-only transaction: a snapshot of the committed state. -/
def Env.beginRo (e : Env) : EngineDb := e.db

/-- Commit the read-write transaction's state, making it the committed
state seen by subsequently-begun transactions. -/
def Env.commit (_e : Env) (txDb : EngineDb) : Env := ⟨txDb⟩

/-! ## A concrete codec for concrete instances

`byteCodec` archives a natural as the one-element byte string holding it;
validation accepts exactly the one-element strings. -/

def byteCodec : Codec Nat Nat where
  encode n := .ok [n]
  access bs :=
    match bs with
    | [b] => .ok b
    | _ => .error .corrupted
  deserialize a := .ok a

/-! ## Derived notions used by the statements -/

/-- The reachable-state invariant of a non-duplicate database: entries
strictly ascending by key. -/
def entriesSorted (es : DbEntries) : Prop :=
  es.Pairwise (fun a b => bytesLt a.1 b.1 = true)

/-- Insert a batch of pairs, in the given (arbitrary) order, into an empty
entry list by the engine's put insertion. -/
def putsFold (l : List (Bytes × Bytes)) : DbEntries :=
  l.foldl (fun es kv => insertSorted es kv.1 kv.2) []

/-- A database with default flags (as `AssocPolyTable` databases have)
holding the given entries. -/
def mkDb (es : DbEntries) : EngineDb := { entries := es }

/-- Repeated `Next` through `Cursor::get` from state `st`, collecting the
returned pairs until an absent result or an abort, with fuel. -/
def walkFrom (db : EngineDb) (st : CursorSt) : Nat → List (Bytes × Bytes)
  | 0 => []
  | fuel + 1 =>
    match Cursor.get db st CursorOpFlags.Next with
    | some (st', some kv) => kv :: walkFrom db st' fuel
    | _ => []

/-- `First` once, then repeated `Next`. -/
def walkNext (db : EngineDb) (fuel : Nat) : List (Bytes × Bytes) :=
  match Cursor.get db ⟨none⟩ CursorOpFlags.First with
  | some (st', some kv) => kv :: walkFrom db st' fuel
  | _ => []

/-- Repeated `Prev` through `Cursor::get` from state `st`. -/
def walkPrevFrom (db : EngineDb) (st : CursorSt) : Nat → List (Bytes × Bytes)
  | 0 => []
  | fuel + 1 =>
    match Cursor.get db st CursorOpFlags.Prev with
    | some (st', some kv) => kv :: walkPrevFrom db st' fuel
    | _ => []

/-- `Last` once, then repeated `Prev`. -/
def walkPrev (db : EngineDb) (fuel : Nat) : List (Bytes × Bytes) :=
  match Cursor.get db ⟨none⟩ CursorOpFlags.Last with
  | some (st', some kv) => kv :: walkPrevFrom db st' fuel
  | _ => []

/-- The observable outcome of one call: data, an absent result, a typed
error returned to the caller, or a process abort. -/
inductive CallOutcome where
  | okData
  | absent
  | err (e : Error)
  | abort
deriving DecidableEq, Repr

/-- The outcome of a `Cursor::get` call. -/
def cursorOutcome (db : EngineDb) (st : CursorSt) (op : CursorOpFlags) : CallOutcome :=
  match Cursor.get db st op with
  | none => .abort
  | some (_, none) => .absent
  | some (_, some _) => .okData

/-- The outcome of an `lmdb::put` call. -/
def putOutcome (db : EngineDb) (key val : Bytes) (flags : PutFlags) : CallOutcome :=
  match (lmdb.put db key val flags).1 with
  | .error e => .err e
  | .ok () => .okData

/-- The database is configured with the integer-key optimization, under
whose contract every stored key is exactly 8 bytes (u64 keys). -/
def integerKeyed8 (db : EngineDb) : Prop :=
  db.integerKey = true ∧ ∀ e ∈ db.entries, (Prod.fst e).length = 8

/-- The spec's concrete cursor scenario: keys 1, 2, 3 bound to the byte
values of "a", "b", "c", inserted out of order. -/
def scenarioInserts : List (Bytes × Bytes) :=
  [([2], [98]), ([3], [99]), ([1], [97])]

/-- The database of the concrete cursor scenario. -/
def scenarioDb : EngineDb := mkDb (putsFold scenarioInserts)

/-! # Theorems

First the order properties of the key comparison and the basic lookup and
insertion lemmas, then one theorem per claim. -/

theorem bytesLt_irrefl (a : Bytes) : bytesLt a a = false := by
  induction a with
  | nil => rfl
  | cons x xs ih => simp [bytesLt, ih]

theorem bytesLt_trans {a b c : Bytes} (hab : bytesLt a b = true)
    (hbc : bytesLt b c = true) : bytesLt a c = true := by
  induction a generalizing b c with
  | nil =>
    cases b with
    | nil => simp [bytesLt] at hab
    | cons y ys =>
      cases c with
      | nil => simp [bytesLt] at hbc
      | cons z zs => rfl
  | cons x xs ih =>
    cases b with
    | nil => simp [bytesLt] at hab
    | cons y ys =>
      cases c with
      | nil => simp [bytesLt] at hbc
      | cons z zs =>
        simp only [bytesLt] at hab hbc ⊢
        rcases lt_trichotomy x y with hxy | hxy | hxy
        · rcases lt_trichotomy y z with hyz | hyz | hyz
          · simp [lt_trans hxy hyz]
          · subst hyz
            simp [hxy]
          · rw [if_neg (by omega), if_pos hyz] at hbc
            exact absurd hbc (by simp)
        · subst hxy
          rw [if_neg (lt_irrefl x), if_neg (lt_irrefl x)] at hab
          rcases lt_trichotomy x z with hxz | hxz | hxz
          · simp [hxz]
          · subst hxz
            rw [if_neg (lt_irrefl x), if_neg (lt_irrefl x)] at hbc
            rw [if_neg (lt_irrefl x), if_neg (lt_irrefl x)]
            exact ih hab hbc
          · rw [if_neg (by omega), if_pos hxz] at hbc
            exact absurd hbc (by simp)
        · rw [if_neg (by omega), if_pos hxy] at hab
          exact absurd hab (by simp)

theorem bytesLt_conn {a b : Bytes} (hne : a ≠ b) (hnlt : bytesLt a b = false) :
    bytesLt b a = true := by
  induction a generalizing b with
  | nil =>
    cases b with
    | nil => exact absurd rfl hne
    | cons y ys => simp [bytesLt] at hnlt
  | cons x xs ih =>
    cases b with
    | nil => rfl
    | cons y ys =>
      simp only [bytesLt] at hnlt ⊢
      rcases lt_trichotomy x y with hxy | hxy | hxy
      · rw [if_pos hxy] at hnlt
        exact absurd hnlt (by simp)
      · subst hxy
        rw [if_neg (lt_irrefl x), if_neg (lt_irrefl x)] at hnlt
        rw [if_neg (lt_irrefl x), if_neg (lt_irrefl x)]
        apply ih _ hnlt
        intro h
        exact hne (by rw [h])
      · simp [hxy]

theorem byteCodec_lawful : byteCodec.Lawful id := by
  constructor
  · intro v
    exact ⟨[v], rfl⟩
  · intro v bs h
    simp only [byteCodec] at h
    cases h
    rfl
  · intro v
    rfl

theorem engineLookup_insertSorted_self (es : DbEntries) (k v : Bytes) :
    engineLookup (insertSorted es k v) k = some v := by
  induction es with
  | nil => simp [insertSorted, engineLookup]
  | cons e rest ih =>
    obtain ⟨k', v'⟩ := e
    by_cases h1 : bytesLt k k' = true
    · simp [insertSorted, h1, engineLookup]
    · by_cases h2 : k = k'
      · subst h2
        simp [insertSorted, h1, engineLookup]
      · have hne : k' ≠ k := fun h => h2 h.symm
        simp [insertSorted, h1, h2, engineLookup, hne, ih]

theorem engineLookup_removeKey (es : DbEntries) (k : Bytes) :
    engineLookup (removeKey es k) k = none := by
  induction es with
  | nil => rfl
  | cons e rest ih =>
    obtain ⟨k', v'⟩ := e
    by_cases h : k' = k
    · subst h
      simpa [removeKey, List.filter_cons] using ih
    · simpa [removeKey, List.filter_cons, h, engineLookup] using ih

/-- C1: for every key k and value v, put(k, v) on a table bound to a
read-write transaction succeeds, and get(k) within the same transaction —
or in a transaction begun after commit — returns a value equal to v (its
archived image), even when k already held a different value: put overwrites
any existing value for that key (the database state is universally
quantified, so in particular it may already hold an entry for k). -/
theorem put_get_roundtrip {K KA V VA : Type}
    (kc : Codec K KA) (vc : Codec V VA) (ka : K → KA) (va : V → VA)
    (hk : kc.Lawful ka) (hv : vc.Lawful va)
    (db : EngineDb) (e : Env) (k : K) (v : V) :
    (AssocPolyTable.put kc vc db k v).1 = .ok () ∧
    AssocPolyTable.get kc vc (AssocPolyTable.put kc vc db k v).2 k
      = .ok (some (va v)) ∧
    AssocPolyTable.get kc vc
        ((Env.commit e (AssocPolyTable.put kc vc db k v).2).beginRo) k
      = .ok (some (va v)) := by
  obtain ⟨kb, hkb⟩ := hk.encode_total k
  obtain ⟨vb, hvb⟩ := hv.encode_total v
  have hacc := hv.access_encode v vb hvb
  have hput : AssocPolyTable.put kc vc db k v
      = (.ok (), { db with entries := insertSorted db.entries kb vb }) := by
    simp [AssocPolyTable.put, hkb, hvb, lmdb.put, enginePut, PutFlags.empty,
      handle_put_code, MDB_SUCCESS]
  have hgetAt :
      AssocPolyTable.get kc vc
        { db with entries := insertSorted db.entries kb vb } k
      = .ok (some (va v)) := by
    simp [AssocPolyTable.get, hkb, lmdb.get, engineGet,
      engineLookup_insertSorted_self, handle_get_code, MDB_SUCCESS, hacc]
  refine ⟨by rw [hput], by rw [hput]; exact hgetAt, ?_⟩
  rw [hput]
  simpa [Env.commit, Env.beginRo] using hgetAt

/-- Witness for C1 at a concrete input: key 9 (already bound to another
value) and value 2 over the byte codec. -/
theorem put_get_roundtrip_witness :
    (AssocPolyTable.put byteCodec byteCodec (mkDb [([9], [3])]) 9 2).1 = .ok () ∧
    AssocPolyTable.get byteCodec byteCodec
        (AssocPolyTable.put byteCodec byteCodec (mkDb [([9], [3])]) 9 2).2 9
      = .ok (some (id 2)) ∧
    AssocPolyTable.get byteCodec byteCodec
        ((Env.commit ⟨mkDb []⟩
          (AssocPolyTable.put byteCodec byteCodec (mkDb [([9], [3])]) 9 2).2).beginRo) 9
      = .ok (some (id 2)) :=
  put_get_roundtrip byteCodec byteCodec id id byteCodec_lawful byteCodec_lawful
    (mkDb [([9], [3])]) ⟨mkDb []⟩ 9 2

/-- C2: for a key k already present — get(k) returns some archived value
a1 — put_no_overwrite(k, v2) fails with KeyExists, and the stored value for
k is unchanged: get(k) on the state after the failed call still returns
a1. -/
theorem put_no_overwrite_keyExists {K KA V VA : Type}
    (kc : Codec K KA) (vc : Codec V VA) (va : V → VA) (hv : vc.Lawful va)
    (db : EngineDb) (k : K) (v2 : V) (a1 : VA)
    (hpresent : AssocPolyTable.get kc vc db k = .ok (some a1)) :
    (AssocPolyTable.put_no_overwrite kc vc db k v2).1 = .error .keyExists ∧
    AssocPolyTable.get kc vc
        (AssocPolyTable.put_no_overwrite kc vc db k v2).2 k
      = .ok (some a1) := by
  cases hkc : kc.encode k with
  | error e => simp [AssocPolyTable.get, hkc] at hpresent
  | ok kb =>
    obtain ⟨vb, hvb⟩ := hv.encode_total v2
    cases heq : engineLookup db.entries kb with
    | none =>
      simp [AssocPolyTable.get, hkc, lmdb.get, engineGet, heq, handle_get_code,
        MDB_NOTFOUND, MDB_SUCCESS] at hpresent
    | some bs =>
      have hpno : AssocPolyTable.put_no_overwrite kc vc db k v2
          = (.error .keyExists, db) := by
        simp [AssocPolyTable.put_no_overwrite, hkc, hvb, lmdb.put, enginePut,
          heq, handle_put_code, MDB_KEYEXIST, MDB_SUCCESS, EINVAL]
      exact ⟨by rw [hpno], by rw [hpno]; exact hpresent⟩

/-- Witness for C2 at a concrete input: key 9 holds value 3; a no-overwrite
put of 7 fails with KeyExists and 3 is still stored. -/
theorem put_no_overwrite_keyExists_witness :
    (AssocPolyTable.put_no_overwrite byteCodec byteCodec (mkDb [([9], [3])]) 9 7).1
      = .error .keyExists ∧
    AssocPolyTable.get byteCodec byteCodec
        (AssocPolyTable.put_no_overwrite byteCodec byteCodec (mkDb [([9], [3])]) 9 7).2 9
      = .ok (some 3) :=
  put_no_overwrite_keyExists byteCodec byteCodec id byteCodec_lawful
    (mkDb [([9], [3])]) 9 7 3 rfl

/-- C3: on a read-write transaction, delete(k) returns true exactly when
the (serialized) key was present before the call, and after a call that
returned true, get(k) within the same transaction returns an absent
result. -/
theorem delete_true_iff_present {K KA V VA : Type}
    (kc : Codec K KA) (vc : Codec V VA) (db : EngineDb) (k : K) (kb : Bytes)
    (hkc : kc.encode k = .ok kb) :
    (AssocPolyTable.delete kc db k).1
      = .ok (engineLookup db.entries kb).isSome ∧
    ((engineLookup db.entries kb).isSome = true →
      AssocPolyTable.get kc vc (AssocPolyTable.delete kc db k).2 k
        = .ok none) := by
  by_cases h : (engineLookup db.entries kb).isSome = true
  · have hdel : AssocPolyTable.delete kc db k
        = (.ok true, { db with entries := removeKey db.entries kb }) := by
      simp [AssocPolyTable.delete, hkc, lmdb.del, engineDel, h,
        handle_del_code, MDB_SUCCESS]
    constructor
    · rw [hdel, h]
    · intro _
      rw [hdel]
      simp [AssocPolyTable.get, hkc, lmdb.get, engineGet,
        engineLookup_removeKey, handle_get_code, MDB_NOTFOUND, MDB_SUCCESS]
  · have hfalse : (engineLookup db.entries kb).isSome = false := by
      cases hx : (engineLookup db.entries kb).isSome with
      | false => rfl
      | true => exact absurd hx h
    have hdel : AssocPolyTable.delete kc db k = (.ok false, db) := by
      simp [AssocPolyTable.delete, hkc, lmdb.del, engineDel, hfalse,
        handle_del_code, MDB_NOTFOUND, MDB_SUCCESS]
    constructor
    · rw [hdel, hfalse]
    · intro hcontra
      exact absurd hcontra h

/-- Witness for C3 at a concrete input: key 9 is present, delete returns
true and a following get is absent. -/
theorem delete_true_iff_present_witness :
    (AssocPolyTable.delete byteCodec (mkDb [([9], [3])]) 9).1
      = .ok (engineLookup [([9], [3])] [9]).isSome ∧
    ((engineLookup [([9], [3])] [9]).isSome = true →
      AssocPolyTable.get byteCodec byteCodec
        (AssocPolyTable.delete byteCodec (mkDb [([9], [3])]) 9).2 9
        = .ok none) :=
  delete_true_iff_present byteCodec byteCodec (mkDb [([9], [3])]) 9 [9] rfl

/-- C4: get(k) returns an absent result (ok none, not a failure) exactly
when the serialized key is not stored; and when the key is stored but the
stored bytes do not validate as a well-formed value of the expected type,
get fails with exactly the validation error — never an absent result (no
silent downgrade of a corrupted value to not-found). -/
theorem get_absent_iff_not_stored {K KA V VA : Type}
    (kc : Codec K KA) (vc : Codec V VA) (db : EngineDb) (k : K) (kb : Bytes)
    (hkc : kc.encode k = .ok kb) :
    (AssocPolyTable.get kc vc db k = .ok none
      ↔ engineLookup db.entries kb = none) ∧
    (∀ bs e, engineLookup db.entries kb = some bs → vc.access bs = .error e →
      AssocPolyTable.get kc vc db k = .error e ∧
      AssocPolyTable.get kc vc db k ≠ .ok none) := by
  cases heq : engineLookup db.entries kb with
  | none =>
    have hget : AssocPolyTable.get kc vc db k = .ok none := by
      simp [AssocPolyTable.get, hkc, lmdb.get, engineGet, heq,
        handle_get_code, MDB_NOTFOUND, MDB_SUCCESS]
    refine ⟨by simp [hget], ?_⟩
    intro bs e hsome _
    cases hsome
  | some bs0 =>
    have hlm : lmdb.get db kb = .ok (some bs0) := by
      simp [lmdb.get, engineGet, heq, handle_get_code, MDB_SUCCESS]
    cases hacc : vc.access bs0 with
    | ok a =>
      have hget : AssocPolyTable.get kc vc db k = .ok (some a) := by
        simp [AssocPolyTable.get, hkc, hlm, hacc]
      refine ⟨by simp [hget], ?_⟩
      intro bs e hsome hacce
      injection hsome with hbs
      rw [← hbs] at hacce
      rw [hacce] at hacc
      cases hacc
    | error e0 =>
      have hget : AssocPolyTable.get kc vc db k = .error e0 := by
        simp [AssocPolyTable.get, hkc, hlm, hacc]
      refine ⟨by simp [hget], ?_⟩
      intro bs e hsome hacce
      injection hsome with hbs
      rw [← hbs] at hacce
      rw [hacce] at hacc
      injection hacc with he
      subst he
      exact ⟨hget, by simp [hget]⟩

/-- Witness for C4 at a concrete input: key 9 stored with the two-byte
string [5, 6], which the byte codec rejects as corrupted. -/
theorem get_absent_iff_not_stored_witness :
    (AssocPolyTable.get byteCodec byteCodec (mkDb [([9], [5, 6])]) 9 = .ok none
      ↔ engineLookup [([9], [5, 6])] [9] = none) ∧
    (∀ bs e, engineLookup [([9], [5, 6])] [9] = some bs →
      byteCodec.access bs = .error e →
      AssocPolyTable.get byteCodec byteCodec (mkDb [([9], [5, 6])]) 9 = .error e ∧
      AssocPolyTable.get byteCodec byteCodec (mkDb [([9], [5, 6])]) 9 ≠ .ok none) :=
  get_absent_iff_not_stored byteCodec byteCodec (mkDb [([9], [5, 6])]) 9 [9] rfl

/-- C5: after clear() succeeds on a table's database, get(k) returns an
absent result for every key k of that database — in particular every
previously-inserted one — and the statistics query on it reports zero
entries. -/
theorem clear_empties {K KA V VA : Type}
    (kc : Codec K KA) (vc : Codec V VA) (db : EngineDb) (k : K) (kb : Bytes)
    (hkc : kc.encode k = .ok kb) :
    (AssocPolyTable.clear db).1 = .ok () ∧
    AssocPolyTable.get kc vc (AssocPolyTable.clear db).2 k = .ok none ∧
    lmdb.stat (AssocPolyTable.clear db).2 = .ok 0 := by
  refine ⟨rfl, ?_, rfl⟩
  simp [AssocPolyTable.clear, lmdb.drop, engineDrop, handle_drop_code,
    AssocPolyTable.get, hkc, lmdb.get, engineGet, engineLookup,
    handle_get_code, MDB_NOTFOUND, MDB_SUCCESS]

/-- Witness for C5 at a concrete input: clearing a database holding key 9
makes its lookup absent and its entry count zero. -/
theorem clear_empties_witness :
    (AssocPolyTable.clear (mkDb [([9], [3])])).1 = .ok () ∧
    AssocPolyTable.get byteCodec byteCodec
        (AssocPolyTable.clear (mkDb [([9], [3])])).2 9 = .ok none ∧
    lmdb.stat (AssocPolyTable.clear (mkDb [([9], [3])])).2 = .ok 0 :=
  clear_empties byteCodec byteCodec (mkDb [([9], [3])]) 9 [9] rfl

/-- C8: get_unrkyv(k) returns an absent result exactly when get(k) does;
when get(k) returns an archived view it returns the deserialization of
that view (the owned value on success, the deserialization error on
failure); and when get(k) fails it fails with the same error. -/
theorem get_unrkyv_refines_get {K KA V VA : Type}
    (kc : Codec K KA) (vc : Codec V VA) (db : EngineDb) (k : K) :
    (AssocPolyTable.get_unrkyv kc vc db k = .ok none
      ↔ AssocPolyTable.get kc vc db k = .ok none) ∧
    (∀ a, AssocPolyTable.get kc vc db k = .ok (some a) →
      AssocPolyTable.get_unrkyv kc vc db k = (vc.deserialize a).map some) ∧
    (∀ e, AssocPolyTable.get kc vc db k = .error e →
      AssocPolyTable.get_unrkyv kc vc db k = .error e) := by
  cases hg : AssocPolyTable.get kc vc db k with
  | error e0 =>
    refine ⟨by simp [AssocPolyTable.get_unrkyv, hg], ?_, ?_⟩
    · intro a ha
      cases ha
    · intro e he
      injection he with h0
      subst h0
      simp [AssocPolyTable.get_unrkyv, hg]
  | ok o =>
    cases o with
    | none =>
      refine ⟨by simp [AssocPolyTable.get_unrkyv, hg], ?_, ?_⟩
      · intro a ha
        simp at ha
      · intro e he
        cases he
    | some a0 =>
      have hun : AssocPolyTable.get_unrkyv kc vc db k
          = (vc.deserialize a0).map some := by
        cases hd : vc.deserialize a0 with
        | error e => simp [AssocPolyTable.get_unrkyv, hg, hd, Except.map]
        | ok v => simp [AssocPolyTable.get_unrkyv, hg, hd, Except.map]
      refine ⟨?_, ?_, ?_⟩
      · rw [hun]
        constructor
        · intro h
          cases hd : vc.deserialize a0 with
          | error e =>
            rw [hd] at h
            simp [Except.map] at h
          | ok v =>
            rw [hd] at h
            simp [Except.map] at h
        · intro h
          simp at h
      · intro a ha
        injection ha with h0
        injection h0 with h1
        rw [← h1]
        exact hun
      · intro e he
        cases he

/-- Witness for C8 at a concrete input (the implications inside are
discharged where they apply). -/
theorem get_unrkyv_refines_get_witness :
    (AssocPolyTable.get_unrkyv byteCodec byteCodec (mkDb [([9], [3])]) 9 = .ok none
      ↔ AssocPolyTable.get byteCodec byteCodec (mkDb [([9], [3])]) 9 = .ok none) ∧
    (∀ a, AssocPolyTable.get byteCodec byteCodec (mkDb [([9], [3])]) 9 = .ok (some a) →
      AssocPolyTable.get_unrkyv byteCodec byteCodec (mkDb [([9], [3])]) 9
        = (byteCodec.deserialize a).map some) ∧
    (∀ e, AssocPolyTable.get byteCodec byteCodec (mkDb [([9], [3])]) 9 = .error e →
      AssocPolyTable.get_unrkyv byteCodec byteCodec (mkDb [([9], [3])]) 9 = .error e) :=
  get_unrkyv_refines_get byteCodec byteCodec (mkDb [([9], [3])]) 9

/-- C9: dbi_open returns a handle without surfacing the engine's status
code — its return type is the bare handle, with no failure outcome.  When
the engine reports failure, the returned handle is the zero-initialized
value the failed open left in the out-parameter; on success it is the
engine-written handle. -/
theorem dbi_open_ignores_failure (code : Int) (written : Nat)
    (hfail : code ≠ MDB_SUCCESS) :
    lmdb.dbi_open code written = 0 ∧
    lmdb.dbi_open MDB_SUCCESS written = written := by
  constructor
  · simp [lmdb.dbi_open, hfail]
  · simp [lmdb.dbi_open]

/-- Witness for C9 at a concrete input: a failing open (EINVAL) yields the
zero handle; a successful one yields the engine's handle 5. -/
theorem dbi_open_ignores_failure_witness :
    lmdb.dbi_open 22 5 = 0 ∧ lmdb.dbi_open MDB_SUCCESS 5 = 5 :=
  dbi_open_ignores_failure 22 5 (by decide)

/-! ## Sortedness of the engine state and cursor iteration -/

theorem insertSorted_cons_lt {k k' v v' : Bytes} {rest : DbEntries}
    (h : bytesLt k k' = true) :
    insertSorted ((k', v') :: rest) k v = (k, v) :: (k', v') :: rest := by
  simp [insertSorted, h]

theorem insertSorted_cons_self {k v v' : Bytes} {rest : DbEntries} :
    insertSorted ((k, v') :: rest) k v = (k, v) :: rest := by
  simp [insertSorted, bytesLt_irrefl]

theorem insertSorted_cons_gt {k k' v v' : Bytes} {rest : DbEntries}
    (h1 : bytesLt k k' = false) (h2 : k ≠ k') :
    insertSorted ((k', v') :: rest) k v = (k', v') :: insertSorted rest k v := by
  simp [insertSorted, h1, h2]

theorem mem_insertSorted {es : DbEntries} {k v : Bytes} {e : Bytes × Bytes}
    (h : e ∈ insertSorted es k v) : e = (k, v) ∨ e ∈ es := by
  induction es with
  | nil =>
    simp [insertSorted] at h
    exact Or.inl h
  | cons hd rest ih =>
    obtain ⟨k', v'⟩ := hd
    by_cases h1 : bytesLt k k' = true
    · rw [insertSorted_cons_lt h1] at h
      rcases List.mem_cons.mp h with h2 | h2
      · exact Or.inl h2
      · exact Or.inr h2
    · have h1f : bytesLt k k' = false := by simpa using h1
      by_cases h2 : k = k'
      · subst h2
        rw [insertSorted_cons_self] at h
        rcases List.mem_cons.mp h with h3 | h3
        · exact Or.inl h3
        · exact Or.inr (List.mem_cons_of_mem _ h3)
      · rw [insertSorted_cons_gt h1f h2] at h
        rcases List.mem_cons.mp h with h3 | h3
        · exact Or.inr (h3 ▸ List.mem_cons_self _ _)
        · rcases ih h3 with h4 | h4
          · exact Or.inl h4
          · exact Or.inr (List.mem_cons_of_mem _ h4)

theorem insertSorted_sorted {es : DbEntries} (hs : entriesSorted es)
    (k v : Bytes) : entriesSorted (insertSorted es k v) := by
  induction es with
  | nil => simp [insertSorted, entriesSorted]
  | cons hd rest ih =>
    obtain ⟨k', v'⟩ := hd
    rw [entriesSorted, List.pairwise_cons] at hs
    obtain ⟨hhd, hrest⟩ := hs
    by_cases h1 : bytesLt k k' = true
    · rw [insertSorted_cons_lt h1, entriesSorted, List.pairwise_cons]
      constructor
      · intro b hb
        rcases List.mem_cons.mp hb with h2 | h2
        · rw [h2]
          exact h1
        · exact bytesLt_trans h1 (hhd b h2)
      · rw [List.pairwise_cons]
        exact ⟨hhd, hrest⟩
    · have h1f : bytesLt k k' = false := by simpa using h1
      by_cases h2 : k = k'
      · subst h2
        rw [insertSorted_cons_self, entriesSorted, List.pairwise_cons]
        exact ⟨hhd, hrest⟩
      · rw [insertSorted_cons_gt h1f h2, entriesSorted, List.pairwise_cons]
        constructor
        · intro b hb
          rcases mem_insertSorted hb with h3 | h3
          · rw [h3]
            exact bytesLt_conn h2 h1f
          · exact hhd b h3
        · exact ih hrest

theorem putsFold_sorted_from (l : List (Bytes × Bytes)) :
    ∀ es, entriesSorted es →
      entriesSorted (l.foldl (fun acc kv => insertSorted acc kv.1 kv.2) es) := by
  induction l with
  | nil =>
    intro es hs
    simpa using hs
  | cons kv rest ih =>
    intro es hs
    simp only [List.foldl_cons]
    exact ih _ (insertSorted_sorted hs kv.1 kv.2)

theorem putsFold_sorted (l : List (Bytes × Bytes)) :
    entriesSorted (putsFold l) :=
  putsFold_sorted_from l [] (by simp [entriesSorted])

theorem cursor_next_step (db : EngineDb) (p : Nat) {e : Bytes × Bytes}
    (hp : db.entries[p + 1]? = some e) :
    Cursor.get db ⟨some p⟩ CursorOpFlags.Next = some (⟨some (p + 1)⟩, some e) := by
  simp [Cursor.get, engineCursorGet, CursorOpFlags.dupOnly, CursorOpFlags.bulkOnly,
    cursorNth, hp, handle_cursor_get_code, MDB_SUCCESS, MDB_NOTFOUND, EINVAL]

theorem cursor_next_exhausted (db : EngineDb) (p : Nat)
    (hp : db.entries[p + 1]? = none) :
    Cursor.get db ⟨some p⟩ CursorOpFlags.Next = some (⟨some p⟩, none) := by
  simp [Cursor.get, engineCursorGet, CursorOpFlags.dupOnly, CursorOpFlags.bulkOnly,
    cursorNth, hp, handle_cursor_get_code, MDB_SUCCESS, MDB_NOTFOUND, EINVAL]

theorem walkFrom_eq (db : EngineDb) (fuel : Nat) :
    ∀ p, db.entries.length ≤ fuel + (p + 1) →
      walkFrom db ⟨some p⟩ fuel = db.entries.drop (p + 1) := by
  induction fuel with
  | zero =>
    intro p hfuel
    rw [walkFrom, eq_comm]
    exact List.drop_eq_nil_of_le (by omega)
  | succ fuel ih =>
    intro p hfuel
    cases hp : db.entries[p + 1]? with
    | some e =>
      have hlt : p + 1 < db.entries.length := by
        by_contra hc
        rw [List.getElem?_eq_none (by omega)] at hp
        cases hp
      have hed : db.entries[p + 1] = e := by
        have := List.getElem?_eq_getElem hlt
        rw [this] at hp
        injection hp
      rw [walkFrom]
      rw [cursor_next_step db p hp]
      show e :: walkFrom db ⟨some (p + 1)⟩ fuel = db.entries.drop (p + 1)
      rw [ih (p + 1) (by omega)]
      rw [List.drop_eq_getElem_cons hlt, hed]
    | none =>
      have hge : db.entries.length ≤ p + 1 := by
        by_contra hc
        rw [List.getElem?_eq_getElem (by omega)] at hp
        cases hp
      rw [walkFrom]
      rw [cursor_next_exhausted db p hp]
      show ([] : List (Bytes × Bytes)) = db.entries.drop (p + 1)
      rw [eq_comm]
      exact List.drop_eq_nil_of_le hge

theorem walkNext_eq (db : EngineDb) :
    walkNext db db.entries.length = db.entries := by
  cases h0 : db.entries[0]? with
  | some e =>
    have hlt : 0 < db.entries.length := by
      by_contra hc
      rw [List.getElem?_eq_none (by omega)] at h0
      cases h0
    have hed : db.entries[0] = e := by
      have := List.getElem?_eq_getElem hlt
      rw [this] at h0
      injection h0
    have hcg : Cursor.get db ⟨none⟩ CursorOpFlags.First = some (⟨some 0⟩, some e) := by
      simp [Cursor.get, engineCursorGet, CursorOpFlags.dupOnly, CursorOpFlags.bulkOnly,
        cursorNth, h0, handle_cursor_get_code, MDB_SUCCESS, MDB_NOTFOUND, EINVAL]
    rw [walkNext, hcg]
    show e :: walkFrom db ⟨some 0⟩ db.entries.length = db.entries
    rw [walkFrom_eq db db.entries.length 0 (by omega)]
    have hdz : db.entries.drop 0 = db.entries[0] :: db.entries.drop (0 + 1) :=
      List.drop_eq_getElem_cons hlt
    rw [List.drop_zero] at hdz
    conv_rhs => rw [hdz]
    rw [hed]
  | none =>
    have hnil : db.entries = [] := by
      cases hes : db.entries with
      | nil => rfl
      | cons a rest =>
        rw [hes] at h0
        simp at h0
    have hcg : Cursor.get db ⟨none⟩ CursorOpFlags.First = some (⟨none⟩, none) := by
      simp [Cursor.get, engineCursorGet, CursorOpFlags.dupOnly, CursorOpFlags.bulkOnly,
        cursorNth, h0, handle_cursor_get_code, MDB_SUCCESS, MDB_NOTFOUND, EINVAL]
    rw [walkNext, hcg, hnil]

theorem cursor_prev_step (db : EngineDb) (q : Nat) {e : Bytes × Bytes}
    (hq : db.entries[q]? = some e) :
    Cursor.get db ⟨some (q + 1)⟩ CursorOpFlags.Prev = some (⟨some q⟩, some e) := by
  simp [Cursor.get, engineCursorGet, CursorOpFlags.dupOnly, CursorOpFlags.bulkOnly,
    cursorNth, hq, handle_cursor_get_code, MDB_SUCCESS, MDB_NOTFOUND, EINVAL]

theorem cursor_prev_at_zero (db : EngineDb) :
    Cursor.get db ⟨some 0⟩ CursorOpFlags.Prev = some (⟨some 0⟩, none) := by
  simp [Cursor.get, engineCursorGet, CursorOpFlags.dupOnly, CursorOpFlags.bulkOnly,
    cursorNth, handle_cursor_get_code, MDB_SUCCESS, MDB_NOTFOUND, EINVAL]

theorem walkPrevFrom_eq (db : EngineDb) (fuel : Nat) :
    ∀ p, p ≤ db.entries.length → p ≤ fuel →
      walkPrevFrom db ⟨some p⟩ fuel = (db.entries.take p).reverse := by
  induction fuel with
  | zero =>
    intro p hple hpf
    have hp0 : p = 0 := by omega
    subst hp0
    rw [walkPrevFrom]
    simp
  | succ fuel ih =>
    intro p hple hpf
    cases p with
    | zero =>
      rw [walkPrevFrom, cursor_prev_at_zero]
      show ([] : List (Bytes × Bytes)) = (db.entries.take 0).reverse
      simp
    | succ q =>
      have hq : q < db.entries.length := by omega
      have hget : db.entries[q]? = some db.entries[q] := List.getElem?_eq_getElem hq
      rw [walkPrevFrom, cursor_prev_step db q hget]
      show db.entries[q] :: walkPrevFrom db ⟨some q⟩ fuel
        = (db.entries.take (q + 1)).reverse
      rw [ih q (by omega) (by omega)]
      rw [List.take_succ, hget, Option.toList_some, List.reverse_append,
        List.reverse_singleton, List.singleton_append]

theorem walkPrev_eq (db : EngineDb) :
    walkPrev db db.entries.length = db.entries.reverse := by
  cases h0 : db.entries[db.entries.length - 1]? with
  | some e =>
    have hpos : 0 < db.entries.length := by
      by_contra hc
      rw [List.getElem?_eq_none (by omega)] at h0
      cases h0
    have hed : db.entries[db.entries.length - 1] = e := by
      have hx := List.getElem?_eq_getElem
        (show db.entries.length - 1 < db.entries.length by omega)
      rw [hx] at h0
      injection h0
    have hcg : Cursor.get db ⟨none⟩ CursorOpFlags.Last
        = some (⟨some (db.entries.length - 1)⟩, some e) := by
      simp [Cursor.get, engineCursorGet, CursorOpFlags.dupOnly, CursorOpFlags.bulkOnly,
        cursorNth, h0, handle_cursor_get_code, MDB_SUCCESS, MDB_NOTFOUND, EINVAL]
    rw [walkPrev, hcg]
    show e :: walkPrevFrom db ⟨some (db.entries.length - 1)⟩ db.entries.length
      = db.entries.reverse
    rw [walkPrevFrom_eq db db.entries.length (db.entries.length - 1) (by omega) (by omega)]
    have hsplit : db.entries = db.entries.take (db.entries.length - 1) ++ [e] := by
      have h1 : db.entries.take ((db.entries.length - 1) + 1)
          = db.entries.take (db.entries.length - 1) ++ [e] := by
        rw [List.take_succ]
        rw [List.getElem?_eq_getElem
          (show db.entries.length - 1 < db.entries.length by omega), hed]
        rfl
      have h2 : (db.entries.length - 1) + 1 = db.entries.length := by omega
      rw [h2, List.take_length] at h1
      exact h1
    conv_rhs => rw [hsplit]
    simp
  | none =>
    have hnil : db.entries = [] := by
      by_contra hc
      have hpos : 0 < db.entries.length := List.length_pos.mpr hc
      rw [List.getElem?_eq_getElem (by omega)] at h0
      cases h0
    have hcg : Cursor.get db ⟨none⟩ CursorOpFlags.Last = some (⟨none⟩, none) := by
      simp [Cursor.get, engineCursorGet, CursorOpFlags.dupOnly, CursorOpFlags.bulkOnly,
        cursorNth, h0, handle_cursor_get_code, MDB_SUCCESS, MDB_NOTFOUND, EINVAL]
    rw [walkPrev, hcg, hnil]
    rfl

/-- C6: for any batch of entries inserted in arbitrary order, a cursor
positioned with First and repeatedly advanced with Next yields the stored
entries — in ascending sorted key order — and a Next call at the last entry
returns an absent result (exhausted), not an error; symmetrically, Last
followed by repeated Prev yields the reverse sequence.  In particular, for
keys 1, 2, 3 bound to "a", "b", "c" (inserted out of order): First yields
(1, "a"), Next yields (2, "b"), then (3, "c"), then absent. -/
theorem cursor_iteration_sorted (l : List (Bytes × Bytes)) :
    entriesSorted (walkNext (mkDb (putsFold l)) (putsFold l).length) ∧
    walkNext (mkDb (putsFold l)) (putsFold l).length = putsFold l ∧
    walkPrev (mkDb (putsFold l)) (putsFold l).length = (putsFold l).reverse ∧
    (∀ p, (putsFold l).length ≤ p + 1 →
      Cursor.get (mkDb (putsFold l)) ⟨some p⟩ CursorOpFlags.Next
        = some (⟨some p⟩, none)) ∧
    Cursor.get scenarioDb ⟨none⟩ CursorOpFlags.First
      = some (⟨some 0⟩, some ([1], [97])) ∧
    Cursor.get scenarioDb ⟨some 0⟩ CursorOpFlags.Next
      = some (⟨some 1⟩, some ([2], [98])) ∧
    Cursor.get scenarioDb ⟨some 1⟩ CursorOpFlags.Next
      = some (⟨some 2⟩, some ([3], [99])) ∧
    Cursor.get scenarioDb ⟨some 2⟩ CursorOpFlags.Next
      = some (⟨some 2⟩, none) := by
  have he : walkNext (mkDb (putsFold l)) (putsFold l).length = putsFold l :=
    walkNext_eq (mkDb (putsFold l))
  have hp : walkPrev (mkDb (putsFold l)) (putsFold l).length = (putsFold l).reverse :=
    walkPrev_eq (mkDb (putsFold l))
  refine ⟨?_, he, hp, ?_, by decide, by decide, by decide, by decide⟩
  · rw [he]
    exact putsFold_sorted l
  · intro p hle
    exact cursor_next_exhausted (mkDb (putsFold l)) p (List.getElem?_eq_none hle)

/-- Witness for C6: the sortedness statement at the scenario batch, and the
exhausted-Next conjunct discharged at position 2 of the scenario. -/
theorem cursor_iteration_sorted_witness :
    entriesSorted (walkNext (mkDb (putsFold scenarioInserts))
      (putsFold scenarioInserts).length) ∧
    Cursor.get (mkDb (putsFold scenarioInserts)) ⟨some 2⟩ CursorOpFlags.Next
      = some (⟨some 2⟩, none) :=
  ⟨(cursor_iteration_sorted scenarioInserts).1,
   (cursor_iteration_sorted scenarioInserts).2.2.2.1 2 (by decide)⟩

/-- C7 counterexample: at the concrete input (non-duplicate database,
duplicate-only operator FirstDup), the call is not rejected with an
InvalidArgument error — the source's cursor path (`Cursor::get`,
src/lmdb.rs:108-116) forwards the flags to the engine without any
compatibility check and has no error channel at all, so the engine's
rejection surfaces as an abort, never as an InvalidArgument result. -/
theorem cursor_incompatible_not_invalidArgument :
    cursorOutcome (mkDb [([1], [2])]) ⟨none⟩ CursorOpFlags.FirstDup
      = CallOutcome.abort ∧
    cursorOutcome (mkDb [([1], [2])]) ⟨none⟩ CursorOpFlags.FirstDup
      ≠ CallOutcome.err Error.invalidArgument :=
  ⟨by decide, by decide⟩

/-- C7 amended: the wrapper performs no compatibility check before
dispatch — flags go to the engine unchanged, and the engine rejects
incompatible combinations (EINVAL).  On the put path that rejection is
surfaced to the caller as an InvalidArgument error and the state is
unchanged; on the cursor path the handler can only report found or
not-found, so the rejection aborts instead of returning InvalidArgument. -/
theorem incompatible_flags_engine_rejected (db : EngineDb) (st : CursorSt)
    (op : CursorOpFlags) (key val : Bytes) (f : PutFlags)
    (hdb : db.dupSort = false) (hop : op.dupOnly = true)
    (hf : f.noDupData = true) :
    putOutcome db key val f = .err .invalidArgument ∧
    (lmdb.put db key val f).2 = db ∧
    cursorOutcome db st op = .abort := by
  refine ⟨?_, ?_, ?_⟩ <;>
    simp [putOutcome, cursorOutcome, lmdb.put, enginePut, Cursor.get,
      engineCursorGet, hdb, hop, hf, handle_put_code, handle_cursor_get_code,
      MDB_SUCCESS, MDB_KEYEXIST, MDB_NOTFOUND, EINVAL]

/-- Witness for the amended C7 at a concrete input. -/
theorem incompatible_flags_engine_rejected_witness :
    putOutcome (mkDb [([1], [2])]) [1] [2] { noDupData := true }
      = .err .invalidArgument ∧
    (lmdb.put (mkDb [([1], [2])]) [1] [2] { noDupData := true }).2
      = mkDb [([1], [2])] ∧
    cursorOutcome (mkDb [([1], [2])]) ⟨none⟩ CursorOpFlags.FirstDup = .abort :=
  incompatible_flags_engine_rejected (mkDb [([1], [2])]) ⟨none⟩
    CursorOpFlags.FirstDup [1] [2] { noDupData := true } rfl rfl rfl

/-- Every entry a cursor positioning returns is a stored entry. -/
theorem engineCursorGet_some_mem (db : EngineDb) (st : CursorSt)
    (op : CursorOpFlags) (e : Bytes × Bytes)
    (h : (engineCursorGet db st op).2.2 = some e) : e ∈ db.entries := by
  have hnth : ∀ p, (cursorNth db st p).2.2 = some e → e ∈ db.entries := by
    intro p hp
    unfold cursorNth at hp
    cases hq : db.entries[p]? with
    | some e0 =>
      rw [hq] at hp
      simp only at hp
      injection hp with hp0
      rw [← hp0]
      exact List.getElem?_mem hq
    | none =>
      rw [hq] at hp
      simp at hp
  unfold engineCursorGet at h
  by_cases h1 : (op.dupOnly && !db.dupSort) = true
  · rw [if_pos h1] at h
    simp at h
  · rw [if_neg h1] at h
    by_cases h2 : (op.bulkOnly && !db.dupFixed) = true
    · rw [if_pos h2] at h
      simp at h
    · rw [if_neg h2] at h
      cases op with
      | GetCurrent =>
        cases hsp : st.pos with
        | none =>
          rw [hsp] at h
          simp at h
        | some p =>
          rw [hsp] at h
          exact hnth p h
      | First => exact hnth 0 h
      | Last => exact hnth (db.entries.length - 1) h
      | Next =>
        cases hsp : st.pos with
        | none =>
          rw [hsp] at h
          exact hnth 0 h
        | some p =>
          rw [hsp] at h
          exact hnth (p + 1) h
      | Prev =>
        cases hsp : st.pos with
        | none =>
          rw [hsp] at h
          exact hnth (db.entries.length - 1) h
        | some p =>
          rw [hsp] at h
          replace h : (if p = 0 then (MDB_NOTFOUND, st, (none : Option (Bytes × Bytes)))
              else cursorNth db st (p - 1)).2.2 = some e := h
          by_cases hp0 : p = 0
          · rw [if_pos hp0] at h
            simp at h
          · rw [if_neg hp0] at h
            exact hnth (p - 1) h
      | Set => simp at h
      | SetKey => simp at h
      | SetRange => simp at h
      | GetMultiple =>
        cases hsp : st.pos with
        | none =>
          rw [hsp] at h
          simp at h
        | some p =>
          rw [hsp] at h
          exact hnth p h
      | NextMultiple =>
        cases hsp : st.pos with
        | none =>
          rw [hsp] at h
          exact hnth 0 h
        | some p =>
          rw [hsp] at h
          exact hnth (p + 1) h
      | FirstDup =>
        cases hsp : st.pos with
        | none =>
          rw [hsp] at h
          simp at h
        | some p =>
          rw [hsp] at h
          exact hnth p h
      | LastDup =>
        cases hsp : st.pos with
        | none =>
          rw [hsp] at h
          simp at h
        | some p =>
          rw [hsp] at h
          exact hnth p h
      | NextDup => simp at h
      | PrevDup => simp at h
      | NextNodup =>
        cases hsp : st.pos with
        | none =>
          rw [hsp] at h
          exact hnth 0 h
        | some p =>
          rw [hsp] at h
          exact hnth (p + 1) h
      | PrevNodup =>
        cases hsp : st.pos with
        | none =>
          rw [hsp] at h
          exact hnth (db.entries.length - 1) h
        | some p =>
          rw [hsp] at h
          replace h : (if p = 0 then (MDB_NOTFOUND, st, (none : Option (Bytes × Bytes)))
              else cursorNth db st (p - 1)).2.2 = some e := h
          by_cases hp0 : p = 0
          · rw [if_pos hp0] at h
            simp at h
          · rw [if_neg hp0] at h
            exact hnth (p - 1) h
      | GetBoth => simp at h
      | GetBothRange => simp at h

/-- C10: on a database configured with 8-byte integer keys, every
result-returning call of get_with_u64_key returns the native-endian u64
decoded from the first 8 bytes of the key the engine produced — which are
exactly that stored key, independently of the adjacent mapped memory — and
the internal assertion that the engine-produced key is exactly 8 bytes
holds.  Without that precondition the 8-byte read is unguarded (the size
check is a debug-only assertion): on a database holding a 1-byte key the
call still returns a value, and that value changes with the adjacent
memory bytes. -/
theorem get_with_u64_key_decodes (db : EngineDb) (st st' : CursorSt)
    (op : CursorOpFlags) (tail : Bytes) (n : Nat) (v : Bytes)
    (hik : integerKeyed8 db)
    (h : Cursor.get_with_u64_key db st op tail = some (st', some (n, v))) :
    (∃ k, (k, v) ∈ db.entries ∧ k.length = 8 ∧ (k ++ tail).take 8 = k ∧
      n = u64_from_ne_bytes k) ∧
    Cursor.get_with_u64_key (mkDb [([5], [7])]) ⟨none⟩ CursorOpFlags.First
        (List.replicate 7 0) = some (⟨some 0⟩, some (5, [7])) ∧
    Cursor.get_with_u64_key (mkDb [([5], [7])]) ⟨none⟩ CursorOpFlags.First
        (1 :: List.replicate 6 0) = some (⟨some 0⟩, some (261, [7])) := by
  refine ⟨?_, by decide, by decide⟩
  rcases heq : engineCursorGet db st op with ⟨c, st2, kv⟩
  rw [Cursor.get_with_u64_key, heq] at h
  dsimp only at h
  cases hh : handle_cursor_get_code c with
  | none =>
    rw [hh] at h
    cases h
  | some b =>
    cases b with
    | false =>
      rw [hh] at h
      simp at h
    | true =>
      rw [hh] at h
      cases kv with
      | none => simp at h
      | some kv0 =>
        obtain ⟨k0, v0⟩ := kv0
        simp only [Option.some.injEq, Prod.mk.injEq] at h
        obtain ⟨hst, hn, hv⟩ := h
        have hmem : (k0, v0) ∈ db.entries := by
          apply engineCursorGet_some_mem db st op
          rw [heq]
        have hlen : k0.length = 8 := hik.2 (k0, v0) hmem
        have htake : (k0 ++ tail).take 8 = k0 := by
          rw [← hlen]
          exact List.take_left k0 tail
        refine ⟨k0, ?_, hlen, htake, ?_⟩
        · rw [← hv]
          exact hmem
        · rw [← hn, htake]

/-- Witness for C10 at a concrete input: an integer-keyed database holding
the 8-byte little-endian key of 1. -/
theorem get_with_u64_key_decodes_witness :
    (∃ k, (k, [97]) ∈ (EngineDb.mk false false true
        [([1, 0, 0, 0, 0, 0, 0, 0], [97])]).entries ∧
      k.length = 8 ∧ (k ++ []).take 8 = k ∧ 1 = u64_from_ne_bytes k) ∧
    Cursor.get_with_u64_key (mkDb [([5], [7])]) ⟨none⟩ CursorOpFlags.First
        (List.replicate 7 0) = some (⟨some 0⟩, some (5, [7])) ∧
    Cursor.get_with_u64_key (mkDb [([5], [7])]) ⟨none⟩ CursorOpFlags.First
        (1 :: List.replicate 6 0) = some (⟨some 0⟩, some (261, [7])) :=
  get_with_u64_key_decodes
    (EngineDb.mk false false true [([1, 0, 0, 0, 0, 0, 0, 0], [97])])
    ⟨none⟩ ⟨some 0⟩ CursorOpFlags.First [] 1 [97]
    ⟨rfl, by decide⟩ (by decide)

end Batadase
